import Mathlib

/-!
Edge-map parameter tuner (`src/canny.cpp`)

A shallow embedding of the `CannyApplier` class and of `main`.

* The image-processing library is a record `CvLib` of uninterpreted functions
  (`blur`, `Canny`, `dilate`, ...).  Only the three matrix operations whose
  result the program itself fixes are given a meaning: allocation
  (`Mat.create`), assignment of a scalar to every element (`Mat.setTo`) and the
  masked copy (`Mat.copyTo`).
* The C++ `int` fields are integers; the only arithmetic the program performs
  on them, `m_threshold * m_ratio`, is the 32-bit product `int_mul`.
* User-visible actions (window creation, `imshow`, console output, ...) are
  recorded as a list of `Effect`s returned next to the new state.
-/

namespace Canny

/-! ## Matrices and the library interface -/

/-- The `cv::Size` value: width and height as C++ `int`s. -/
structure Size where
  width : Int
  height : Int

/-- The `cv::Point` value. -/
structure Point where
  x : Int
  y : Int

/-- A contour is a sequence of points (`std::vector<cv::Point>`). -/
abbrev Contour := List Point

/-- The matrix `cv::Mat`: its dimensions, its element type code, its number of
channels and the value stored at row `r`, column `c`, channel `ch`.  Only the
values at positions inside the dimensions are meaningful. -/
structure Mat where
  rows : Nat
  cols : Nat
  type : Nat
  chans : Nat
  px : Nat → Nat → Nat → Nat

/-- The structuring-element shapes of `cv::getStructuringElement`. -/
inductive MorphShapes where
  | MORPH_RECT
  | MORPH_CROSS
  | MORPH_ELLIPSE
  deriving DecidableEq, Repr

/-- The contour retrieval modes of `cv::findContours`. -/
inductive RetrievalModes where
  | RETR_EXTERNAL
  | RETR_LIST
  | RETR_CCOMP
  | RETR_TREE
  deriving DecidableEq, Repr

/-- The contour approximation modes of `cv::findContours`. -/
inductive ContourApproximationModes where
  | CHAIN_APPROX_NONE
  | CHAIN_APPROX_SIMPLE
  deriving DecidableEq, Repr

/-- The constant `cv::FILLED`, the thickness that asks `drawContours` to fill. -/
def FILLED : Int := -1

/-- The operations of the image-processing library that the program calls and
whose results it does not determine itself.  They are parameters of the whole
development. -/
structure CvLib where
  /-- Contents of freshly allocated, not yet written matrix memory. -/
  uninit : Nat → Nat → Nat → Nat
  /-- The call `cv::imread(file, cv::IMREAD_COLOR)`: the matrix the file decodes
  to, empty when the file cannot be read. -/
  imread : String → Mat
  /-- The call `cv::cvtColor(src, dst, cv::COLOR_BGR2GRAY)`. -/
  cvtColorBGR2GRAY : Mat → Mat
  /-- The call `cv::normalize(src, dst, alpha, beta, cv::NORM_MINMAX)`. -/
  normalizeMinMax : Mat → Int → Int → Mat
  /-- The call `cv::blur(src, dst, ksize)`. -/
  blur : Mat → Size → Mat
  /-- The call `cv::Canny(image, edges, threshold1, threshold2, apertureSize)`. -/
  Canny : Mat → Int → Int → Int → Mat
  /-- The call `cv::getStructuringElement(shape, ksize)`. -/
  getStructuringElement : MorphShapes → Size → Mat
  /-- The call `cv::dilate(src, dst, kernel, anchor, iterations)`. -/
  dilate : Mat → Mat → Point → Int → Mat
  /-- The call `cv::erode(src, dst, kernel, anchor, iterations)`. -/
  erode : Mat → Mat → Point → Int → Mat
  /-- The call `cv::medianBlur(src, dst, ksize)`. -/
  medianBlur : Mat → Int → Mat
  /-- The contours output of `cv::findContours(image, contours, hierarchy, mode, method)`. -/
  findContours : Mat → RetrievalModes → ContourApproximationModes → List Contour
  /-- The call `cv::convexHull(points, hull)`. -/
  convexHull : Contour → Contour
  /-- The call `cv::drawContours(image, contours, contourIdx, color, thickness)`
  with the colour `cv::Scalar::all(color)`. -/
  drawContours : Mat → List Contour → Int → Nat → Int → Mat

/-- The accessor `cv::Mat::size()`. -/
def Mat.size (m : Mat) : Size := ⟨m.cols, m.rows⟩

/-- The predicate `cv::Mat::empty()`: the matrix has no element. -/
def Mat.empty (m : Mat) : Bool := m.rows * m.cols == 0

/-- The default-constructed `cv::Mat`. -/
def Mat.default (cv : CvLib) : Mat := ⟨0, 0, 0, 1, cv.uninit⟩

/-- The `cv::Mat(size, type)` constructor and `cv::Mat::create(size, type)` on a
fresh matrix: the dimensions and type are set, the contents are whatever the
allocated memory holds.  `chans` is the channel count of `type`. -/
def Mat.create (cv : CvLib) (size : Size) (type chans : Nat) : Mat :=
  ⟨size.height.toNat, size.width.toNat, type, chans, cv.uninit⟩

/-- The position `(r, c, ch)` lies inside the matrix. -/
def Mat.inBounds (m : Mat) (r c ch : Nat) : Prop :=
  r < m.rows ∧ c < m.cols ∧ ch < m.chans

instance (m : Mat) (r c ch : Nat) : Decidable (m.inBounds r c ch) := by
  unfold Mat.inBounds; infer_instance

/-- The assignment `m = cv::Scalar::all(v)`: every element of the matrix
becomes `v`. -/
def Mat.setTo (m : Mat) (v : Nat) : Mat :=
  { m with px := fun r c ch => if m.inBounds r c ch then v else m.px r c ch }

/-- The call `src.copyTo(dst, mask)` for a destination that already has the
size and type of `src` and a single-channel mask: an element is copied from
`src` where the mask is non-zero and the destination keeps its value
elsewhere. -/
def Mat.copyTo (src dst mask : Mat) : Mat :=
  { rows := src.rows, cols := src.cols, type := src.type, chans := src.chans,
    px := fun r c ch => if mask.px r c 0 ≠ 0 then src.px r c ch else dst.px r c ch }

/-! ## Machine integers -/

/-- The value of a 32-bit two's-complement `int` holding `x` modulo `2^32`. -/
def int32_wrap (x : Int) : Int := (x + 2 ^ 31) % 2 ^ 32 - 2 ^ 31

/-- The product of two C++ `int`s. -/
def int_mul (a b : Int) : Int := int32_wrap (a * b)

/-- The value fits a 32-bit `int`. -/
def fitsInt32 (x : Int) : Prop := -(2 ^ 31) ≤ x ∧ x < 2 ^ 31

instance (x : Int) : Decidable (fitsInt32 x) := by
  unfold fitsInt32; infer_instance

/-! ## The `CannyApplier` class -/

/-- The six slider callbacks `CannyApplier::apply_*`. -/
inductive Callback where
  | threshold
  | ratio
  | apperture
  | blur
  | dilation
  | erosion
  deriving DecidableEq, Repr

/-- The externally visible actions of the program. -/
inductive Effect where
  | imread (file_name : String)
  | cerr (msg : String)
  | cout (msg : String)
  | namedWindow (win_name : String)
  | createTrackbar (trackbar_name win_name : String) (count : Int) (on_change : Callback)
  | imshow (win_name : String) (img : Mat)
  | waitKey (delay : Int)

/-- The data members of `CannyApplier` with their default member initialisers. -/
structure CannyApplier where
  m_win_name : String
  m_src : Mat
  m_src_gray : Mat
  m_white : Mat
  m_threshold : Int := 0
  m_ratio : Int := 3
  m_apperture_size : Int := 3
  m_blur_size : Int := 1
  m_dilation_iter : Int := 0
  m_erosion_iter : Int := 0

/-- The table `s_apperture_size_values`. -/
def s_apperture_size_values : List Int := [3, 5, 7]

/-- The table `s_blur_size_values`. -/
def s_blur_size_values : List Int := [1, 3, 6, 8, 10, 13, 15, 18, 25]

/-- The constant `max_threshold`. -/
def max_threshold : Int := 100

/-- The constant `max_ratio`. -/
def max_ratio : Int := 50

/-- The constant `max_apperture_size`. -/
def max_apperture_size : Int := s_apperture_size_values.length - 1

/-- The constant `max_blur_size`. -/
def max_blur_size : Int := s_blur_size_values.length - 1

/-- The constant `max_dilation_iter`. -/
def max_dilation_iter : Int := 10

/-- The constant `max_erosion_iter`. -/
def max_erosion_iter : Int := 10

/-- The unchecked `std::array::operator[]` with an `int` index: the element
when the index is inside the array, no defined result otherwise. -/
def array_at (a : List Int) (pos : Int) : Option Int :=
  if 0 ≤ pos then a[pos.toNat]? else none

/-- The constructor `CannyApplier(win_name, file_name)`. -/
def CannyApplier.new (cv : CvLib) (win_name file_name : String) :
    CannyApplier × List Effect :=
  let m_src := cv.imread file_name
  let m_white := Mat.create cv m_src.size m_src.type m_src.chans
  if !m_src.empty then
    let m_src_gray := cv.cvtColorBGR2GRAY m_src
    let m_src_gray := cv.normalizeMinMax m_src_gray 0 1
    let m_white := m_white.setTo 0xFF
    ({ m_win_name := win_name, m_src := m_src, m_src_gray := m_src_gray,
       m_white := m_white }, [Effect.imread file_name])
  else
    ({ m_win_name := win_name, m_src := m_src, m_src_gray := Mat.default cv,
       m_white := m_white }, [Effect.imread file_name])

/-- The member `CannyApplier::empty`. -/
def CannyApplier.empty (self : CannyApplier) : Bool := self.m_src.empty

/-- The loop of `smooth_contours` from index `i` on, with at most `n`
iterations left: `approx_contours[i]` receives the convex hull of
`contours[i]`. -/
def hull_loop (cv : CvLib) (contours : List Contour) :
    Nat → Nat → List Contour → List Contour
  | 0, _, approx_contours => approx_contours
  | n + 1, i, approx_contours =>
    if i < contours.length then
      hull_loop cv contours n (i + 1)
        (approx_contours.set i (cv.convexHull (contours.getD i [])))
    else approx_contours

/-- The vector `approx_contours` that `smooth_contours` hands to
`cv::drawContours`: resized to the number of contours, then filled by the
loop, which runs once per contour. -/
def approx_contours (cv : CvLib) (contours : List Contour) : List Contour :=
  let approx : List Contour := List.replicate contours.length []
  hull_loop cv contours contours.length 0 approx

/-- The member `CannyApplier::smooth_contours`. -/
def smooth_contours (cv : CvLib) (src : Mat) : Mat :=
  let contours := cv.findContours src
    RetrievalModes.RETR_EXTERNAL ContourApproximationModes.CHAIN_APPROX_SIMPLE
  let approx := approx_contours cv contours
  let dst := Mat.create cv src.size src.type src.chans
  let dst := dst.setTo 0
  cv.drawContours dst approx (-1) 255 FILLED

/-- The value of the local `edges` of `make_canny` when it is passed to
`smooth_contours` (source lines 67 to 78). -/
def make_canny_edges (cv : CvLib) (self : CannyApplier) : Mat :=
  let edges := cv.blur self.m_src_gray ⟨self.m_blur_size, self.m_blur_size⟩
  let edges := cv.Canny edges self.m_threshold
    (int_mul self.m_threshold self.m_ratio) self.m_apperture_size
  let morpher1 := cv.getStructuringElement MorphShapes.MORPH_CROSS ⟨5, 5⟩
  let morpher2 := cv.getStructuringElement MorphShapes.MORPH_RECT ⟨4, 4⟩
  let edges :=
    if self.m_dilation_iter > 0 then
      cv.dilate edges morpher1 ⟨-1, -1⟩ self.m_dilation_iter
    else edges
  let edges :=
    if self.m_erosion_iter > 0 then
      cv.erode edges morpher1 ⟨-1, -1⟩ self.m_erosion_iter
    else edges
  let edges := cv.dilate edges morpher2 ⟨-1, -1⟩ 5
  cv.medianBlur edges 5

/-- The member `CannyApplier::make_canny`. -/
def make_canny (cv : CvLib) (self : CannyApplier) : Mat :=
  let dst := Mat.create cv self.m_src.size self.m_src.type self.m_src.chans
  let edges := cv.blur self.m_src_gray ⟨self.m_blur_size, self.m_blur_size⟩
  let edges := cv.Canny edges self.m_threshold
    (int_mul self.m_threshold self.m_ratio) self.m_apperture_size
  let morpher1 := cv.getStructuringElement MorphShapes.MORPH_CROSS ⟨5, 5⟩
  let morpher2 := cv.getStructuringElement MorphShapes.MORPH_RECT ⟨4, 4⟩
  let edges :=
    if self.m_dilation_iter > 0 then
      cv.dilate edges morpher1 ⟨-1, -1⟩ self.m_dilation_iter
    else edges
  let edges :=
    if self.m_erosion_iter > 0 then
      cv.erode edges morpher1 ⟨-1, -1⟩ self.m_erosion_iter
    else edges
  let edges := cv.dilate edges morpher2 ⟨-1, -1⟩ 5
  let edges := cv.medianBlur edges 5
  let nuclei := smooth_contours cv edges
  let dst := dst.setTo 0
  self.m_white.copyTo dst nuclei

/-- The member `CannyApplier::redraw`. -/
def redraw (cv : CvLib) (self : CannyApplier) : List Effect :=
  [Effect.imshow self.m_win_name (make_canny cv self)]

/-- The member `CannyApplier::initial`. -/
def CannyApplier.initial (cv : CvLib) (self : CannyApplier) : List Effect :=
  redraw cv self

/-- The expansion of `UPDATER(threshold)`. -/
def update_threshold (cv : CvLib) (self : CannyApplier) (threshold : Int) :
    CannyApplier × List Effect :=
  if threshold ≠ self.m_threshold then
    let self1 := { self with m_threshold := threshold }
    (self1, redraw cv self1)
  else (self, [])

/-- The expansion of `UPDATER(ratio)`. -/
def update_ratio (cv : CvLib) (self : CannyApplier) (ratio : Int) :
    CannyApplier × List Effect :=
  if ratio ≠ self.m_ratio then
    let self1 := { self with m_ratio := ratio }
    (self1, redraw cv self1)
  else (self, [])

/-- The expansion of `UPDATER(apperture_size)`. -/
def update_apperture_size (cv : CvLib) (self : CannyApplier) (apperture_size : Int) :
    CannyApplier × List Effect :=
  if apperture_size ≠ self.m_apperture_size then
    let self1 := { self with m_apperture_size := apperture_size }
    (self1, redraw cv self1)
  else (self, [])

/-- The expansion of `UPDATER(blur_size)`. -/
def update_blur_size (cv : CvLib) (self : CannyApplier) (blur_size : Int) :
    CannyApplier × List Effect :=
  if blur_size ≠ self.m_blur_size then
    let self1 := { self with m_blur_size := blur_size }
    (self1, redraw cv self1)
  else (self, [])

/-- The expansion of `UPDATER(dilation_iter)`. -/
def update_dilation_iter (cv : CvLib) (self : CannyApplier) (dilation_iter : Int) :
    CannyApplier × List Effect :=
  if dilation_iter ≠ self.m_dilation_iter then
    let self1 := { self with m_dilation_iter := dilation_iter }
    (self1, redraw cv self1)
  else (self, [])

/-- The expansion of `UPDATER(erosion_iter)`. -/
def update_erosion_iter (cv : CvLib) (self : CannyApplier) (erosion_iter : Int) :
    CannyApplier × List Effect :=
  if erosion_iter ≠ self.m_erosion_iter then
    let self1 := { self with m_erosion_iter := erosion_iter }
    (self1, redraw cv self1)
  else (self, [])

/-- The callback `CannyApplier::apply_threshold`. -/
def apply_threshold (cv : CvLib) (pos : Int) (self : CannyApplier) :
    CannyApplier × List Effect :=
  update_threshold cv self pos

/-- The callback `CannyApplier::apply_ratio`. -/
def apply_ratio (cv : CvLib) (pos : Int) (self : CannyApplier) :
    CannyApplier × List Effect :=
  update_ratio cv self pos

/-- The callback `CannyApplier::apply_apperture`; no defined result when `pos`
is outside the table. -/
def apply_apperture (cv : CvLib) (pos : Int) (self : CannyApplier) :
    Option (CannyApplier × List Effect) :=
  (array_at s_apperture_size_values pos).map (update_apperture_size cv self)

/-- The callback `CannyApplier::apply_blur`; no defined result when `pos` is
outside the table. -/
def apply_blur (cv : CvLib) (pos : Int) (self : CannyApplier) :
    Option (CannyApplier × List Effect) :=
  (array_at s_blur_size_values pos).map (update_blur_size cv self)

/-- The callback `CannyApplier::apply_dilation`. -/
def apply_dilation (cv : CvLib) (pos : Int) (self : CannyApplier) :
    CannyApplier × List Effect :=
  update_dilation_iter cv self pos

/-- The callback `CannyApplier::apply_erosion`. -/
def apply_erosion (cv : CvLib) (pos : Int) (self : CannyApplier) :
    CannyApplier × List Effect :=
  update_erosion_iter cv self pos

/-! ## `main` and the trackbars -/

/-- The trackbars `main` registers, in order: label, maximal position and
callback of each `cv::createTrackbar` call. -/
def trackbars : List (String × Int × Callback) :=
  [("Min Threshold:", max_threshold, Callback.threshold),
   ("Threshold Ratio:", max_ratio, Callback.ratio),
   ("Apperture Size:", max_apperture_size, Callback.apperture),
   ("Blur Size:", max_blur_size, Callback.blur),
   ("Dilation Iters:", max_dilation_iter, Callback.dilation),
   ("Erosion Iters:", max_erosion_iter, Callback.erosion)]

/-- The function `main`: the exit code and the actions performed, up to and
including the blocking `cv::waitKey(0)`. -/
def main (cv : CvLib) (argc : Int) (argv : List String) : Int × List Effect :=
  if argc ≠ 2 then
    (-1, [Effect.cerr ("usage: " ++ argv.getD 0 "" ++ " <image filename>")])
  else
    let win_name := "Edge Map"
    let (canny, loaded) := CannyApplier.new cv win_name (argv.getD 1 "")
    if canny.empty then
      (-2, loaded ++ [Effect.cerr ("Could not open image " ++ argv.getD 1 "")])
    else
      (0, loaded
        ++ [Effect.namedWindow win_name]
        ++ trackbars.map (fun t => Effect.createTrackbar t.1 win_name t.2.1 t.2.2)
        ++ [Effect.cout "Initial processing..."]
        ++ canny.initial cv
        ++ [Effect.waitKey 0])

/-- The dispatch the GUI performs when a slider moves: the callback registered
for the slider is called with the new position. -/
def invoke (cv : CvLib) (cb : Callback) (pos : Int) (self : CannyApplier) :
    Option (CannyApplier × List Effect) :=
  match cb with
  | Callback.threshold => some (apply_threshold cv pos self)
  | Callback.ratio => some (apply_ratio cv pos self)
  | Callback.apperture => apply_apperture cv pos self
  | Callback.blur => apply_blur cv pos self
  | Callback.dilation => some (apply_dilation cv pos self)
  | Callback.erosion => some (apply_erosion cv pos self)

/-! ## Observations used to state the properties -/

/-- The effect is a display of an image (`cv::imshow`), which is what
`redraw` does. -/
def Effect.isImshow : Effect → Bool
  | Effect.imshow _ _ => true
  | _ => false

/-- The effect is an attempt to load an image file. -/
def Effect.isImread : Effect → Bool
  | Effect.imread _ => true
  | _ => false

/-- The effect creates a window. -/
def Effect.isNamedWindow : Effect → Bool
  | Effect.namedWindow _ => true
  | _ => false

/-- The effect creates a trackbar. -/
def Effect.isCreateTrackbar : Effect → Bool
  | Effect.createTrackbar _ _ _ _ => true
  | _ => false

/-- The number of redraws among the effects of one call. -/
def redraws (effs : List Effect) : Nat := effs.countP Effect.isImshow

/-- The largest position the slider of a callback reports: the `count` given
to its `cv::createTrackbar` call in `main`. -/
def max_pos (cb : Callback) : Int :=
  ((trackbars.find? (fun t => t.2.2 = cb)).map (fun t => t.2.1)).getD 0

/-- The position is one the slider of the callback can report. -/
def inRange (cb : Callback) (pos : Int) : Prop := 0 ≤ pos ∧ pos ≤ max_pos cb

instance (cb : Callback) (pos : Int) : Decidable (inRange cb pos) := by
  unfold inRange; infer_instance

/-- The data member a callback's updater compares and assigns. -/
def field : Callback → CannyApplier → Int
  | Callback.threshold, s => s.m_threshold
  | Callback.ratio, s => s.m_ratio
  | Callback.apperture, s => s.m_apperture_size
  | Callback.blur, s => s.m_blur_size
  | Callback.dilation, s => s.m_dilation_iter
  | Callback.erosion, s => s.m_erosion_iter

/-- The value a callback passes to its updater for a slider position. -/
def mapped : Callback → Int → Option Int
  | Callback.threshold, pos => some pos
  | Callback.ratio, pos => some pos
  | Callback.apperture, pos => array_at s_apperture_size_values pos
  | Callback.blur, pos => array_at s_blur_size_values pos
  | Callback.dilation, pos => some pos
  | Callback.erosion, pos => some pos

/-- The state in which the data member of a callback holds `v` and every other
member is as in `s`. -/
def assign (cb : Callback) (v : Int) (s : CannyApplier) : CannyApplier :=
  match cb with
  | Callback.threshold => { s with m_threshold := v }
  | Callback.ratio => { s with m_ratio := v }
  | Callback.apperture => { s with m_apperture_size := v }
  | Callback.blur => { s with m_blur_size := v }
  | Callback.dilation => { s with m_dilation_iter := v }
  | Callback.erosion => { s with m_erosion_iter := v }

/-- A sequence of slider callbacks run from a state: the final state and the
effects of each invocation, in order. -/
def run (cv : CvLib) : CannyApplier → List (Callback × Int) →
    Option (CannyApplier × List (List Effect))
  | s, [] => some (s, [])
  | s, (cb, pos) :: rest =>
    match invoke cv cb pos s with
    | none => none
    | some (s1, eff) =>
      match run cv s1 rest with
      | none => none
      | some (s2, effs) => some (s2, eff :: effs)

/-- Slider movements: starting from the slider positions `p`, every
invocation reports a position inside its slider's range and different from the
position that slider had before. -/
def validMoves : (Callback → Int) → List (Callback × Int) → Prop
  | _, [] => True
  | p, (cb, pos) :: rest =>
    inRange cb pos ∧ pos ≠ p cb ∧ validMoves (Function.update p cb pos) rest

/-- The stored parameters agree with the slider positions `p`: every field
other than `m_ratio` holds the value mapped from its slider's position, and
`m_ratio` holds its slider's position once that slider has been moved
(`moved`), while before that it holds its initial value 3 with the slider at
position 0. -/
def Sync (p : Callback → Int) (moved : Bool) (s : CannyApplier) : Prop :=
  (∀ cb, cb ≠ Callback.ratio → mapped cb (p cb) = some (field cb s)) ∧
  (moved = true → s.m_ratio = p Callback.ratio) ∧
  (moved = false → s.m_ratio = 3 ∧ p Callback.ratio = 0)

/-- The parameter ranges the pipeline relies on. -/
structure ValidParams (s : CannyApplier) : Prop where
  threshold : 0 ≤ s.m_threshold ∧ s.m_threshold ≤ 100
  ratio : 0 ≤ s.m_ratio ∧ s.m_ratio ≤ 50
  apperture : s.m_apperture_size ∈ [3, 5, 7]
  blur : s.m_blur_size ∈ [1, 3, 6, 8, 10, 13, 15, 18, 25]
  dilation : 0 ≤ s.m_dilation_iter ∧ s.m_dilation_iter ≤ 10
  erosion : 0 ≤ s.m_erosion_iter ∧ s.m_erosion_iter ≤ 10

/-! ## The pipeline as the specification words it -/

/-- Box blur with a square kernel of side `m_blur_size`. -/
def stage_blur (cv : CvLib) (s : CannyApplier) (img : Mat) : Mat :=
  cv.blur img ⟨s.m_blur_size, s.m_blur_size⟩

/-- Canny with lower threshold `m_threshold`, upper threshold
`m_threshold * m_ratio` (the product of the two `int` fields, an `int`) and
aperture `m_apperture_size`. -/
def stage_canny (cv : CvLib) (s : CannyApplier) (img : Mat) : Mat :=
  cv.Canny img s.m_threshold (int_mul s.m_threshold s.m_ratio) s.m_apperture_size

/-- Dilation with the 5x5 cross for `m_dilation_iter` iterations, applied
exactly when `m_dilation_iter > 0`. -/
def stage_dilate (cv : CvLib) (s : CannyApplier) (img : Mat) : Mat :=
  if 0 < s.m_dilation_iter then
    cv.dilate img (cv.getStructuringElement MorphShapes.MORPH_CROSS ⟨5, 5⟩) ⟨-1, -1⟩
      s.m_dilation_iter
  else img

/-- Erosion with the 5x5 cross for `m_erosion_iter` iterations, applied exactly
when `m_erosion_iter > 0`. -/
def stage_erode (cv : CvLib) (s : CannyApplier) (img : Mat) : Mat :=
  if 0 < s.m_erosion_iter then
    cv.erode img (cv.getStructuringElement MorphShapes.MORPH_CROSS ⟨5, 5⟩) ⟨-1, -1⟩
      s.m_erosion_iter
  else img

/-- Unconditional dilation with the 4x4 rectangle for 5 iterations. -/
def stage_dilate_rect (cv : CvLib) (img : Mat) : Mat :=
  cv.dilate img (cv.getStructuringElement MorphShapes.MORPH_RECT ⟨4, 4⟩) ⟨-1, -1⟩ 5

/-- Median blur of size 5. -/
def stage_median (cv : CvLib) (img : Mat) : Mat := cv.medianBlur img 5

/-- A black image with the size and type of `like`. -/
def black (cv : CvLib) (like : Mat) : Mat :=
  (Mat.create cv like.size like.type like.chans).setTo 0

/-- External contour extraction, convex hull of each contour, and the filled
drawing of the hulls in white on a black image. -/
def stage_hull_mask (cv : CvLib) (img : Mat) : Mat :=
  let contours := cv.findContours img
    RetrievalModes.RETR_EXTERNAL ContourApproximationModes.CHAIN_APPROX_SIMPLE
  cv.drawContours (black cv img) (contours.map cv.convexHull) (-1) 255 FILLED

/-- The composite of white through the mask onto a black image. -/
def stage_composite (cv : CvLib) (s : CannyApplier) (mask : Mat) : Mat :=
  s.m_white.copyTo (black cv s.m_src) mask

/-- The pipeline in the order the specification gives. -/
def make_canny_spec (cv : CvLib) (s : CannyApplier) : Mat :=
  (stage_composite cv s ∘ stage_hull_mask cv ∘ stage_median cv ∘ stage_dilate_rect cv
    ∘ stage_erode cv s ∘ stage_dilate cv s ∘ stage_canny cv s ∘ stage_blur cv s)
    s.m_src_gray

/-! ## A concrete library instance for evaluating the definitions -/

/-- A 2x2 three-channel image. -/
def sampleImage : Mat := ⟨2, 2, 16, 3, fun r c ch => 10 * r + 3 * c + ch⟩

/-- A small library instance: the only readable file is `cell.png`, the
filters keep the image, `Canny` marks the pixels of the first row when its
upper threshold is positive, contour extraction yields two contours and the
drawing paints the first column of the canvas when given two contours. -/
def sampleCv : CvLib where
  uninit := fun _ _ _ => 9
  imread := fun f => if f = "cell.png" then sampleImage else ⟨0, 0, 16, 3, fun _ _ _ => 0⟩
  cvtColorBGR2GRAY := fun m => { m with type := 0, chans := 1 }
  normalizeMinMax := fun m _ _ => m
  blur := fun m _ => m
  Canny := fun m _ t2 _ =>
    { m with px := fun r _ _ => if 0 < t2 ∧ r = 0 then 255 else 0 }
  getStructuringElement := fun _ k => ⟨k.height.toNat, k.width.toNat, 0, 1, fun _ _ _ => 1⟩
  dilate := fun m _ _ _ => m
  erode := fun m _ _ _ => m
  medianBlur := fun m _ => m
  findContours := fun _ _ _ => [[⟨0, 0⟩, ⟨1, 0⟩, ⟨0, 1⟩], [⟨1, 1⟩]]
  convexHull := fun c => c.take 2
  drawContours := fun m cs _ color _ =>
    { m with px := fun r c ch => if cs.length = 2 ∧ c = 0 then color else m.px r c ch }

/-- The freshly constructed object for the readable sample file. -/
def sampleFresh : CannyApplier := (CannyApplier.new sampleCv "Edge Map" "cell.png").1

/-! ## Lemmas on the tables and the updaters -/

theorem max_pos_values :
    max_pos Callback.threshold = 100 ∧ max_pos Callback.ratio = 50 ∧
    max_pos Callback.apperture = 2 ∧ max_pos Callback.blur = 8 ∧
    max_pos Callback.dilation = 10 ∧ max_pos Callback.erosion = 10 := by
  decide

theorem array_at_apperture (pos : Int) (h0 : 0 ≤ pos) (h1 : pos ≤ 2) :
    ∃ v, array_at s_apperture_size_values pos = some v ∧ v ∈ [3, 5, 7] := by
  interval_cases pos <;> simp [array_at, s_apperture_size_values]

theorem array_at_blur (pos : Int) (h0 : 0 ≤ pos) (h1 : pos ≤ 8) :
    ∃ v, array_at s_blur_size_values pos = some v ∧
      v ∈ [1, 3, 6, 8, 10, 13, 15, 18, 25] := by
  interval_cases pos <;> simp [array_at, s_blur_size_values]

theorem array_at_isSome (a : List Int) (pos : Int) :
    (array_at a pos).isSome = true ↔ 0 ≤ pos ∧ pos < a.length := by
  unfold array_at
  by_cases h : 0 ≤ pos
  · simp only [h, if_true, true_and]
    rw [Option.isSome_iff_exists]
    constructor
    · rintro ⟨v, hv⟩
      have := (List.getElem?_eq_some_iff.mp hv).1
      omega
    · intro hlt
      have hn : pos.toNat < a.length := by omega
      exact ⟨a[pos.toNat], List.getElem?_eq_getElem hn⟩
  · simp [h]

theorem update_threshold_spec (cv : CvLib) (s : CannyApplier) (v : Int) :
    (update_threshold cv s v).1 = { s with m_threshold := v } ∧
    redraws (update_threshold cv s v).2 = if v ≠ s.m_threshold then 1 else 0 := by
  unfold update_threshold
  by_cases h : v = s.m_threshold
  · subst h; simp [redraws]
  · simp [h, redraws, redraw, Effect.isImshow]

theorem update_ratio_spec (cv : CvLib) (s : CannyApplier) (v : Int) :
    (update_ratio cv s v).1 = { s with m_ratio := v } ∧
    redraws (update_ratio cv s v).2 = if v ≠ s.m_ratio then 1 else 0 := by
  unfold update_ratio
  by_cases h : v = s.m_ratio
  · subst h; simp [redraws]
  · simp [h, redraws, redraw, Effect.isImshow]

theorem update_apperture_size_spec (cv : CvLib) (s : CannyApplier) (v : Int) :
    (update_apperture_size cv s v).1 = { s with m_apperture_size := v } ∧
    redraws (update_apperture_size cv s v).2 = if v ≠ s.m_apperture_size then 1 else 0 := by
  unfold update_apperture_size
  by_cases h : v = s.m_apperture_size
  · subst h; simp [redraws]
  · simp [h, redraws, redraw, Effect.isImshow]

theorem update_blur_size_spec (cv : CvLib) (s : CannyApplier) (v : Int) :
    (update_blur_size cv s v).1 = { s with m_blur_size := v } ∧
    redraws (update_blur_size cv s v).2 = if v ≠ s.m_blur_size then 1 else 0 := by
  unfold update_blur_size
  by_cases h : v = s.m_blur_size
  · subst h; simp [redraws]
  · simp [h, redraws, redraw, Effect.isImshow]

theorem update_dilation_iter_spec (cv : CvLib) (s : CannyApplier) (v : Int) :
    (update_dilation_iter cv s v).1 = { s with m_dilation_iter := v } ∧
    redraws (update_dilation_iter cv s v).2 = if v ≠ s.m_dilation_iter then 1 else 0 := by
  unfold update_dilation_iter
  by_cases h : v = s.m_dilation_iter
  · subst h; simp [redraws]
  · simp [h, redraws, redraw, Effect.isImshow]

theorem update_erosion_iter_spec (cv : CvLib) (s : CannyApplier) (v : Int) :
    (update_erosion_iter cv s v).1 = { s with m_erosion_iter := v } ∧
    redraws (update_erosion_iter cv s v).2 = if v ≠ s.m_erosion_iter then 1 else 0 := by
  unfold update_erosion_iter
  by_cases h : v = s.m_erosion_iter
  · subst h; simp [redraws]
  · simp [h, redraws, redraw, Effect.isImshow]

theorem invoke_spec (cv : CvLib) (s : CannyApplier) (cb : Callback) (pos v : Int)
    (hv : mapped cb pos = some v) :
    ∃ eff, invoke cv cb pos s = some (assign cb v s, eff) ∧
      redraws eff = (if v ≠ field cb s then 1 else 0) ∧
      (v = field cb s → eff = []) := by
  cases cb <;> simp only [mapped, Option.some.injEq] at hv
  · subst hv
    refine ⟨(update_threshold cv s pos).2, ?_, (update_threshold_spec cv s pos).2, ?_⟩
    · simp [invoke, apply_threshold, assign, ← (update_threshold_spec cv s pos).1]
    · intro h; simp [update_threshold, field] at h ⊢; simp [h]
  · subst hv
    refine ⟨(update_ratio cv s pos).2, ?_, (update_ratio_spec cv s pos).2, ?_⟩
    · simp [invoke, apply_ratio, assign, ← (update_ratio_spec cv s pos).1]
    · intro h; simp [update_ratio, field] at h ⊢; simp [h]
  · refine ⟨(update_apperture_size cv s v).2, ?_, (update_apperture_size_spec cv s v).2, ?_⟩
    · simp [invoke, apply_apperture, hv, assign, ← (update_apperture_size_spec cv s v).1]
    · intro h; simp [update_apperture_size, field] at h ⊢; simp [h]
  · refine ⟨(update_blur_size cv s v).2, ?_, (update_blur_size_spec cv s v).2, ?_⟩
    · simp [invoke, apply_blur, hv, assign, ← (update_blur_size_spec cv s v).1]
    · intro h; simp [update_blur_size, field] at h ⊢; simp [h]
  · subst hv
    refine ⟨(update_dilation_iter cv s pos).2, ?_, (update_dilation_iter_spec cv s pos).2, ?_⟩
    · simp [invoke, apply_dilation, assign, ← (update_dilation_iter_spec cv s pos).1]
    · intro h; simp [update_dilation_iter, field] at h ⊢; simp [h]
  · subst hv
    refine ⟨(update_erosion_iter cv s pos).2, ?_, (update_erosion_iter_spec cv s pos).2, ?_⟩
    · simp [invoke, apply_erosion, assign, ← (update_erosion_iter_spec cv s pos).1]
    · intro h; simp [update_erosion_iter, field] at h ⊢; simp [h]

theorem mapped_of_inRange (cb : Callback) (pos : Int) (h : inRange cb pos) :
    ∃ v, mapped cb pos = some v := by
  obtain ⟨h0, h1⟩ := h
  cases cb
  · exact ⟨pos, rfl⟩
  · exact ⟨pos, rfl⟩
  · rw [max_pos_values.2.2.1] at h1
    obtain ⟨v, hv, _⟩ := array_at_apperture pos h0 h1
    exact ⟨v, hv⟩
  · rw [max_pos_values.2.2.2.1] at h1
    obtain ⟨v, hv, _⟩ := array_at_blur pos h0 h1
    exact ⟨v, hv⟩
  · exact ⟨pos, rfl⟩
  · exact ⟨pos, rfl⟩

theorem field_assign_self (cb : Callback) (v : Int) (s : CannyApplier) :
    field cb (assign cb v s) = v := by
  cases cb <;> rfl

theorem field_assign_other (cb cb2 : Callback) (v : Int) (s : CannyApplier) (h : cb2 ≠ cb) :
    field cb2 (assign cb v s) = field cb2 s := by
  cases cb <;> cases cb2 <;> first | rfl | exact absurd rfl h

theorem assign_field (cb : Callback) (s : CannyApplier) : assign cb (field cb s) s = s := by
  cases cb <;> rfl

theorem hull_loop_spec (cv : CvLib) (cs : List Contour) :
    ∀ (n i : Nat) (approx : List Contour), approx.length = cs.length → i + n = cs.length →
      (hull_loop cv cs n i approx).length = cs.length ∧
      ∀ j (hj : j < cs.length),
        (hull_loop cv cs n i approx)[j]? =
          if i ≤ j then some (cv.convexHull cs[j]) else approx[j]? := by
  intro n
  induction n with
  | zero =>
    intro i approx hlen hi
    refine ⟨by simpa [hull_loop] using hlen, ?_⟩
    intro j hj
    have : ¬ i ≤ j := by omega
    simp [hull_loop, this]
  | succ n ih =>
    intro i approx hlen hi
    have hlt : i < cs.length := by omega
    have hlen2 : (approx.set i (cv.convexHull (cs.getD i []))).length = cs.length := by
      simpa using hlen
    obtain ⟨h1, h2⟩ := ih (i + 1) _ hlen2 (by omega)
    simp only [hull_loop, hlt, if_true]
    refine ⟨h1, ?_⟩
    intro j hj
    rw [h2 j hj]
    by_cases hij : i + 1 ≤ j
    · have : i ≤ j := by omega
      simp [hij, this]
    · by_cases hje : i = j
      · subst hje
        have hi2 : i < approx.length := by omega
        simp [hi2, List.getD_eq_getElem?_getD, List.getElem?_eq_getElem hlt]
      · have : ¬ i ≤ j := by omega
        simp [hij, this, List.getElem?_set_ne hje]

theorem approx_contours_eq_map (cv : CvLib) (cs : List Contour) :
    approx_contours cv cs = cs.map cv.convexHull := by
  obtain ⟨h1, h2⟩ := hull_loop_spec cv cs cs.length 0 (List.replicate cs.length [])
    (by simp) (by simp)
  apply List.ext_getElem?
  intro j
  by_cases hj : j < cs.length
  · simp only [approx_contours]
    rw [h2 j hj]
    simp [List.getElem?_map, List.getElem?_eq_getElem hj]
  · have e1 : (approx_contours cv cs)[j]? = none := by
      apply List.getElem?_eq_none
      simp only [approx_contours]
      omega
    have e2 : (cs.map cv.convexHull)[j]? = none := by
      apply List.getElem?_eq_none
      simp only [List.length_map]
      omega
    rw [e1, e2]

/-- C8: `max_apperture_size` is the length of `s_apperture_size_values` minus 1
(that is 2) and `max_blur_size` is the length of `s_blur_size_values` minus 1
(that is 8); these are the maximal positions `main` registers for the two
sliders, and a table lookup is inside its table exactly for the positions from
0 to that maximum, so `apply_apperture` and `apply_blur` have a defined result
for every position their slider can report. -/
theorem C8_table_lookups_in_bounds :
    max_apperture_size = (s_apperture_size_values.length : Int) - 1 ∧
    max_apperture_size = 2 ∧
    max_blur_size = (s_blur_size_values.length : Int) - 1 ∧
    max_blur_size = 8 ∧
    max_pos Callback.apperture = max_apperture_size ∧
    max_pos Callback.blur = max_blur_size ∧
    (∀ pos : Int, (0 ≤ pos ∧ pos ≤ max_apperture_size) ↔
      (array_at s_apperture_size_values pos).isSome = true) ∧
    (∀ pos : Int, (0 ≤ pos ∧ pos ≤ max_blur_size) ↔
      (array_at s_blur_size_values pos).isSome = true) ∧
    (∀ (cv : CvLib) (s : CannyApplier) (pos : Int), 0 ≤ pos → pos ≤ max_apperture_size →
      (apply_apperture cv pos s).isSome = true) ∧
    (∀ (cv : CvLib) (s : CannyApplier) (pos : Int), 0 ≤ pos → pos ≤ max_blur_size →
      (apply_blur cv pos s).isSome = true) := by
  have ha : max_apperture_size = 2 := by decide
  have hb : max_blur_size = 8 := by decide
  have la : (s_apperture_size_values.length : Int) = 3 := by decide
  have lb : (s_blur_size_values.length : Int) = 9 := by decide
  refine ⟨rfl, ha, rfl, hb, by decide, by decide, ?_, ?_, ?_, ?_⟩
  · intro pos
    rw [array_at_isSome, ha, la]
    constructor <;> rintro ⟨h0, h1⟩ <;> exact ⟨h0, by omega⟩
  · intro pos
    rw [array_at_isSome, hb, lb]
    constructor <;> rintro ⟨h0, h1⟩ <;> exact ⟨h0, by omega⟩
  · intro cv s pos h0 h1
    have : (array_at s_apperture_size_values pos).isSome = true := by
      rw [array_at_isSome, la]; exact ⟨h0, by omega⟩
    simpa [apply_apperture] using this
  · intro cv s pos h0 h1
    have : (array_at s_blur_size_values pos).isSome = true := by
      rw [array_at_isSome, lb]; exact ⟨h0, by omega⟩
    simpa [apply_blur] using this

/-- C2: for every state and every position inside the slider's range, the
callback has a defined result; afterwards the callback's own field holds the
mapped value (the position itself for threshold, ratio, dilation and erosion,
the table entry at the position for aperture and blur), the other five
parameter fields are unchanged, and so are the window name and the images. -/
theorem C2_callback_mutates_own_field (cv : CvLib) (s : CannyApplier) (cb : Callback)
    (pos : Int) (h : inRange cb pos) :
    ∃ v s1 eff, invoke cv cb pos s = some (s1, eff) ∧
      (match cb with
        | Callback.apperture => s_apperture_size_values[pos.toNat]? = some v
        | Callback.blur => s_blur_size_values[pos.toNat]? = some v
        | _ => v = pos) ∧
      field cb s1 = v ∧
      (∀ cb2, cb2 ≠ cb → field cb2 s1 = field cb2 s) ∧
      s1.m_win_name = s.m_win_name ∧ s1.m_src = s.m_src ∧
      s1.m_src_gray = s.m_src_gray ∧ s1.m_white = s.m_white := by
  obtain ⟨v, hv⟩ := mapped_of_inRange cb pos h
  obtain ⟨eff, he, -, -⟩ := invoke_spec cv s cb pos v hv
  refine ⟨v, assign cb v s, eff, he, ?_, field_assign_self cb v s,
    fun cb2 h2 => field_assign_other cb cb2 v s h2, ?_⟩
  · have h0 : 0 ≤ pos := h.1
    cases cb <;> simp only [mapped, Option.some.injEq, array_at, h0, if_true] at hv <;>
      first | exact hv | exact hv.symm
  · cases cb <;> exact ⟨rfl, rfl, rfl, rfl⟩

/-- Witness of C2: the blur slider moved to position 4 on the sample object. -/
theorem C2_callback_mutates_own_field_witness :
    inRange Callback.blur 4 ∧
    ∃ v s1 eff, invoke sampleCv Callback.blur 4 sampleFresh = some (s1, eff) ∧
      s_blur_size_values[(4 : Int).toNat]? = some v ∧
      field Callback.blur s1 = v ∧
      (∀ cb2, cb2 ≠ Callback.blur → field cb2 s1 = field cb2 sampleFresh) ∧
      s1.m_win_name = sampleFresh.m_win_name ∧ s1.m_src = sampleFresh.m_src ∧
      s1.m_src_gray = sampleFresh.m_src_gray ∧ s1.m_white = sampleFresh.m_white :=
  ⟨by decide, C2_callback_mutates_own_field sampleCv sampleFresh Callback.blur 4 (by decide)⟩

/-- C7: for every state and every invocation of a slider callback whose
position has a mapped value `v`, the callback has a defined result, it redraws
exactly once when `v` differs from the value stored in its field and not at all
when they are equal, in which case the whole state is unchanged; invoking the
same callback again with the same position produces no effect at all and
leaves the state reached by the first invocation. -/
theorem C7_redraw_iff_field_changes (cv : CvLib) (s : CannyApplier) (cb : Callback)
    (pos v : Int) (hv : mapped cb pos = some v) :
    ∃ s1 eff, invoke cv cb pos s = some (s1, eff) ∧
      (redraws eff = 1 ↔ v ≠ field cb s) ∧
      (redraws eff = 0 ↔ v = field cb s) ∧
      (v = field cb s → s1 = s ∧ eff = []) ∧
      field cb s1 = v ∧
      invoke cv cb pos s1 = some (s1, []) := by
  obtain ⟨eff, he, hr, hnil⟩ := invoke_spec cv s cb pos v hv
  obtain ⟨eff2, he2, -, hnil2⟩ := invoke_spec cv (assign cb v s) cb pos v hv
  have hnil3 := hnil2 (field_assign_self cb v s).symm
  have hidem : assign cb v (assign cb v s) = assign cb v s := by
    cases cb <;> rfl
  refine ⟨assign cb v s, eff, he, ?_, ?_, ?_, field_assign_self cb v s, ?_⟩
  · rw [hr]; by_cases hc : v = field cb s <;> simp [hc]
  · rw [hr]; by_cases hc : v = field cb s <;> simp [hc]
  · intro hc
    exact ⟨by rw [hc]; exact assign_field cb s, hnil hc⟩
  · rw [he2, hidem, hnil3]

/-- Witness of C7: the aperture slider moved to position 2 on the sample
object, where the table gives the value 7. -/
theorem C7_redraw_iff_field_changes_witness :
    mapped Callback.apperture 2 = some 7 ∧
    ∃ s1 eff, invoke sampleCv Callback.apperture 2 sampleFresh = some (s1, eff) ∧
      (redraws eff = 1 ↔ (7 : Int) ≠ field Callback.apperture sampleFresh) ∧
      (redraws eff = 0 ↔ (7 : Int) = field Callback.apperture sampleFresh) ∧
      ((7 : Int) = field Callback.apperture sampleFresh → s1 = sampleFresh ∧ eff = []) ∧
      field Callback.apperture s1 = 7 ∧
      invoke sampleCv Callback.apperture 2 s1 = some (s1, []) :=
  ⟨by decide, C7_redraw_iff_field_changes sampleCv sampleFresh Callback.apperture 2 7 (by decide)⟩

/-- C5: the vector that `smooth_contours` passes to the filled drawing has the
length of the vector of contours returned by contour extraction, its `i`-th
element is the convex hull of the `i`-th contour for every index `i`, and
hence it is the list of the hulls in the order of the contours. -/
theorem C5_contours_replaced_by_hulls (cv : CvLib) :
    (∀ src : Mat, smooth_contours cv src =
      cv.drawContours ((Mat.create cv src.size src.type src.chans).setTo 0)
        (approx_contours cv (cv.findContours src RetrievalModes.RETR_EXTERNAL
          ContourApproximationModes.CHAIN_APPROX_SIMPLE)) (-1) 255 FILLED) ∧
    (∀ contours : List Contour,
      (approx_contours cv contours).length = contours.length ∧
      (∀ i (hi : i < contours.length),
        (approx_contours cv contours)[i]? = some (cv.convexHull contours[i])) ∧
      approx_contours cv contours = contours.map cv.convexHull) := by
  refine ⟨fun src => rfl, fun contours => ?_⟩
  have hmap := approx_contours_eq_map cv contours
  refine ⟨by simp [hmap], ?_, hmap⟩
  intro i hi
  rw [hmap]
  simp [List.getElem?_map, List.getElem?_eq_getElem hi]

theorem int32_wrap_of_fits (x : Int) (h : fitsInt32 x) : int32_wrap x = x := by
  obtain ⟨h0, h1⟩ := h
  unfold int32_wrap
  rw [Int.emod_eq_of_lt (by omega) (by omega)]
  omega

theorem int_mul_of_fits (a b : Int) (h : fitsInt32 (a * b)) : int_mul a b = a * b :=
  int32_wrap_of_fits _ h

theorem make_canny_eq_composite (cv : CvLib) (s : CannyApplier) :
    make_canny cv s =
      s.m_white.copyTo (black cv s.m_src) (smooth_contours cv (make_canny_edges cv s)) :=
  rfl

/-- C3: in every parameter state, with the library operations uninterpreted,
`make_canny` is the composition, in this order, of the box blur of the
grayscale image with a square kernel of side `m_blur_size`, Canny with lower
threshold `m_threshold`, upper threshold the `int` product
`m_threshold * m_ratio` and aperture `m_apperture_size`, the cross dilation
applied exactly when `m_dilation_iter > 0`, the cross erosion applied exactly
when `m_erosion_iter > 0`, the unconditional rectangle dilation, the median
blur, the extraction of external contours with the convex hull of each and
their filled drawing, and the composite of white through that mask onto a
black image. -/
theorem C3_make_canny_is_pipeline (cv : CvLib) (s : CannyApplier) :
    make_canny cv s = make_canny_spec cv s := by
  simp only [make_canny, make_canny_spec, Function.comp_apply, stage_composite,
    stage_hull_mask, stage_median, stage_dilate_rect, stage_erode, stage_dilate,
    stage_canny, stage_blur, smooth_contours, approx_contours_eq_map, black, gt_iff_lt]

theorem new_white (cv : CvLib) (win file : String) (r c ch : Nat)
    (hb : (CannyApplier.new cv win file).1.m_white.inBounds r c ch) :
    (CannyApplier.new cv win file).1.m_white.px r c ch = 0xFF ∧
    (CannyApplier.new cv win file).1.m_src.inBounds r c ch := by
  unfold CannyApplier.new at hb ⊢
  by_cases he : (cv.imread file).empty = true
  · simp only [he, Bool.not_true, Bool.false_eq_true, if_false] at hb ⊢
    simp only [Mat.inBounds, Mat.create, Mat.size, Int.toNat_ofNat] at hb
    simp only [Mat.empty, beq_iff_eq, Nat.mul_eq_zero] at he
    omega
  · simp only [he, Bool.not_false, if_true] at hb ⊢
    simp only [Mat.setTo, Mat.inBounds, Mat.create, Mat.size, Int.toNat_ofNat] at hb ⊢
    simp [hb]

/-- C4: for the object constructed from any image file, in every parameter
state and at every position inside the image `make_canny` returns, the value
of every channel is 0xFF when the mask returned by `smooth_contours` is
non-zero at that pixel and 0 otherwise, so it is 0 or 255. -/
theorem C4_make_canny_output_binary (cv : CvLib) (win file : String) (s : CannyApplier)
    (hsrc : s.m_src = (CannyApplier.new cv win file).1.m_src)
    (hwhite : s.m_white = (CannyApplier.new cv win file).1.m_white)
    (row col ch : Nat) (hb : (make_canny cv s).inBounds row col ch) :
    (make_canny cv s).px row col ch =
      (if (smooth_contours cv (make_canny_edges cv s)).px row col 0 ≠ 0 then 0xFF else 0) ∧
    ((make_canny cv s).px row col ch = 0 ∨ (make_canny cv s).px row col ch = 255) := by
  rw [make_canny_eq_composite] at hb ⊢
  have hb2 : (CannyApplier.new cv win file).1.m_white.inBounds row col ch := by
    rw [← hwhite]; exact hb
  obtain ⟨hw, hs⟩ := new_white cv win file row col ch hb2
  rw [← hwhite] at hw
  rw [← hsrc] at hs
  have hblack : (black cv s.m_src).px row col ch = 0 := by
    simp only [Mat.inBounds] at hs
    simp [black, Mat.setTo, Mat.inBounds, Mat.create, Mat.size, hs]
  by_cases hm : (smooth_contours cv (make_canny_edges cv s)).px row col 0 = 0
  · simp [Mat.copyTo, hm, hblack]
  · simp [Mat.copyTo, hm, hw]

/-- Witness of C4: the sample object with threshold 2, at row 0, column 0,
channel 0. -/
theorem C4_make_canny_output_binary_witness :
    (make_canny sampleCv { sampleFresh with m_threshold := 2 }).inBounds 0 0 0 ∧
    ((make_canny sampleCv { sampleFresh with m_threshold := 2 }).px 0 0 0 =
      (if (smooth_contours sampleCv
          (make_canny_edges sampleCv { sampleFresh with m_threshold := 2 })).px 0 0 0 ≠ 0
        then 0xFF else 0) ∧
    ((make_canny sampleCv { sampleFresh with m_threshold := 2 }).px 0 0 0 = 0 ∨
      (make_canny sampleCv { sampleFresh with m_threshold := 2 }).px 0 0 0 = 255)) :=
  ⟨by decide, C4_make_canny_output_binary sampleCv "Edge Map" "cell.png"
    { sampleFresh with m_threshold := 2 } rfl rfl 0 0 0 (by decide)⟩

theorem new_src (cv : CvLib) (win file : String) :
    (CannyApplier.new cv win file).1.m_src = cv.imread file ∧
    (CannyApplier.new cv win file).1.m_win_name = win ∧
    (CannyApplier.new cv win file).2 = [Effect.imread file] := by
  unfold CannyApplier.new
  by_cases he : (cv.imread file).empty = true
  · simp [he]
  · simp [he]

theorem main_two (cv : CvLib) (argv : List String) :
    main cv 2 argv =
      if (cv.imread (argv.getD 1 "")).empty = true then
        (-2, [Effect.imread (argv.getD 1 ""),
          Effect.cerr ("Could not open image " ++ argv.getD 1 "")])
      else
        (0, [Effect.imread (argv.getD 1 ""),
           Effect.namedWindow "Edge Map",
           Effect.createTrackbar "Min Threshold:" "Edge Map" 100 Callback.threshold,
           Effect.createTrackbar "Threshold Ratio:" "Edge Map" 50 Callback.ratio,
           Effect.createTrackbar "Apperture Size:" "Edge Map" 2 Callback.apperture,
           Effect.createTrackbar "Blur Size:" "Edge Map" 8 Callback.blur,
           Effect.createTrackbar "Dilation Iters:" "Edge Map" 10 Callback.dilation,
           Effect.createTrackbar "Erosion Iters:" "Edge Map" 10 Callback.erosion,
           Effect.cout "Initial processing...",
           Effect.imshow "Edge Map"
             (make_canny cv (CannyApplier.new cv "Edge Map" (argv.getD 1 "")).1),
           Effect.waitKey 0]) := by
  have hmax : max_apperture_size = 2 ∧ max_blur_size = 8 ∧ max_threshold = 100 ∧
      max_ratio = 50 ∧ max_dilation_iter = 10 ∧ max_erosion_iter = 10 := by decide
  obtain ⟨m1, m2, m3, m4, m5, m6⟩ := hmax
  unfold main
  generalize argv.getD 1 "" = f
  obtain ⟨h1, h2, h3⟩ := new_src cv "Edge Map" f
  simp only [ne_eq, not_true_eq_false, if_false, CannyApplier.empty, h1, h3,
    CannyApplier.initial, redraw, h2, trackbars, m1, m2, m3, m4, m5, m6]
  by_cases he : (cv.imread f).empty = true
  · simp [he]
  · simp [he]

/-- C6: for every argument count other than 2, `main` returns -1 and neither
loads an image nor creates a window or trackbar nor renders; for the argument
count 2 it returns -2 exactly when the loaded image is empty, and then creates
no window, no trackbar and renders nothing; for the argument count 2 and a
non-empty image it returns 0 after loading the image, creating the window and
the six trackbars (with maxima 100, 50, 2, 8, 10, 10), printing a message,
rendering once and waiting for a key. -/
theorem C6_main_exit_codes (cv : CvLib) (argc : Int) (argv : List String) :
    (argc ≠ 2 →
      (main cv argc argv).1 = -1 ∧
      (main cv argc argv).2.countP Effect.isImread = 0 ∧
      (main cv argc argv).2.countP Effect.isNamedWindow = 0 ∧
      (main cv argc argv).2.countP Effect.isCreateTrackbar = 0 ∧
      (main cv argc argv).2.countP Effect.isImshow = 0) ∧
    (argc = 2 →
      ((main cv argc argv).1 = -2 ↔ (cv.imread (argv.getD 1 "")).empty = true) ∧
      ((cv.imread (argv.getD 1 "")).empty = true →
        (main cv argc argv).2.countP Effect.isNamedWindow = 0 ∧
        (main cv argc argv).2.countP Effect.isCreateTrackbar = 0 ∧
        (main cv argc argv).2.countP Effect.isImshow = 0) ∧
      ((cv.imread (argv.getD 1 "")).empty = false →
        (main cv argc argv).1 = 0 ∧
        (main cv argc argv).2 =
          [Effect.imread (argv.getD 1 ""),
           Effect.namedWindow "Edge Map",
           Effect.createTrackbar "Min Threshold:" "Edge Map" 100 Callback.threshold,
           Effect.createTrackbar "Threshold Ratio:" "Edge Map" 50 Callback.ratio,
           Effect.createTrackbar "Apperture Size:" "Edge Map" 2 Callback.apperture,
           Effect.createTrackbar "Blur Size:" "Edge Map" 8 Callback.blur,
           Effect.createTrackbar "Dilation Iters:" "Edge Map" 10 Callback.dilation,
           Effect.createTrackbar "Erosion Iters:" "Edge Map" 10 Callback.erosion,
           Effect.cout "Initial processing...",
           Effect.imshow "Edge Map"
             (make_canny cv (CannyApplier.new cv "Edge Map" (argv.getD 1 "")).1),
           Effect.waitKey 0] ∧
        (main cv argc argv).2.countP Effect.isNamedWindow = 1 ∧
        (main cv argc argv).2.countP Effect.isCreateTrackbar = 6 ∧
        (main cv argc argv).2.countP Effect.isImshow = 1)) := by
  constructor
  · intro h
    simp [main, h, Effect.isImread, Effect.isNamedWindow, Effect.isCreateTrackbar,
      Effect.isImshow]
  · intro h
    subst h
    rw [main_two]
    generalize argv.getD 1 "" = f
    by_cases he : (cv.imread f).empty = true
    · simp [he, Effect.isNamedWindow, Effect.isCreateTrackbar, Effect.isImshow]
    · simp only [Bool.not_eq_true] at he
      simp [he, Effect.isNamedWindow, Effect.isCreateTrackbar, Effect.isImshow]

theorem mapped_inj (cb : Callback) (a b x : Int) (ha : mapped cb a = some x)
    (hb : mapped cb b = some x) : a = b := by
  cases cb <;> simp only [mapped, Option.some.injEq] at ha hb
  · omega
  · omega
  · have h1 := (array_at_isSome s_apperture_size_values a).mp (by simp [ha])
    have h2 := (array_at_isSome s_apperture_size_values b).mp (by simp [hb])
    have hl : (s_apperture_size_values.length : Int) = 3 := by decide
    rw [hl] at h1 h2
    obtain ⟨h1a, h1b⟩ := h1
    obtain ⟨h2a, h2b⟩ := h2
    interval_cases a <;> simp [array_at, s_apperture_size_values] at ha <;> subst ha <;>
      interval_cases b <;> simp [array_at, s_apperture_size_values] at hb ⊢
  · have h1 := (array_at_isSome s_blur_size_values a).mp (by simp [ha])
    have h2 := (array_at_isSome s_blur_size_values b).mp (by simp [hb])
    have hl : (s_blur_size_values.length : Int) = 9 := by decide
    rw [hl] at h1 h2
    obtain ⟨h1a, h1b⟩ := h1
    obtain ⟨h2a, h2b⟩ := h2
    interval_cases a <;> simp [array_at, s_blur_size_values] at ha <;> subst ha <;>
      interval_cases b <;> simp [array_at, s_blur_size_values] at hb ⊢
  · omega
  · omega

theorem validParams_assign (cb : Callback) (pos v : Int) (s : CannyApplier)
    (hs : ValidParams s) (hr : inRange cb pos) (hv : mapped cb pos = some v) :
    ValidParams (assign cb v s) := by
  obtain ⟨h0, h1⟩ := hr
  obtain ⟨m1, m2, m3, m4, m5, m6⟩ := max_pos_values
  obtain ⟨t, r, a, b, d, e⟩ := hs
  cases cb <;> simp only [mapped, Option.some.injEq] at hv
  · subst hv; rw [m1] at h1; exact ⟨⟨h0, h1⟩, r, a, b, d, e⟩
  · subst hv; rw [m2] at h1; exact ⟨t, ⟨h0, h1⟩, a, b, d, e⟩
  · rw [m3] at h1
    obtain ⟨w, hw, hmem⟩ := array_at_apperture pos h0 h1
    rw [hw, Option.some.injEq] at hv
    subst hv
    exact ⟨t, r, hmem, b, d, e⟩
  · rw [m4] at h1
    obtain ⟨w, hw, hmem⟩ := array_at_blur pos h0 h1
    rw [hw, Option.some.injEq] at hv
    subst hv
    exact ⟨t, r, a, hmem, d, e⟩
  · subst hv; rw [m5] at h1; exact ⟨t, r, a, b, ⟨h0, h1⟩, e⟩
  · subst hv; rw [m6] at h1; exact ⟨t, r, a, b, d, ⟨h0, h1⟩⟩

theorem new_params (cv : CvLib) (win file : String) :
    (CannyApplier.new cv win file).1.m_threshold = 0 ∧
    (CannyApplier.new cv win file).1.m_ratio = 3 ∧
    (CannyApplier.new cv win file).1.m_apperture_size = 3 ∧
    (CannyApplier.new cv win file).1.m_blur_size = 1 ∧
    (CannyApplier.new cv win file).1.m_dilation_iter = 0 ∧
    (CannyApplier.new cv win file).1.m_erosion_iter = 0 := by
  unfold CannyApplier.new
  by_cases he : (cv.imread file).empty = true
  · simp [he]
  · simp [he]

theorem validParams_new (cv : CvLib) (win file : String) :
    ValidParams (CannyApplier.new cv win file).1 := by
  obtain ⟨t, r, a, b, d, e⟩ := new_params cv win file
  constructor <;> simp [t, r, a, b, d, e]

theorem run_valid (cv : CvLib) :
    ∀ (evs : List (Callback × Int)) (s : CannyApplier), ValidParams s →
      (∀ e ∈ evs, inRange e.1 e.2) →
      ∃ s1 effs, run cv s evs = some (s1, effs) ∧ ValidParams s1 := by
  intro evs
  induction evs with
  | nil => intro s hs _; exact ⟨s, [], rfl, hs⟩
  | cons e rest ih =>
    intro s hs hr
    obtain ⟨cb, pos⟩ := e
    have hin : inRange cb pos := hr (cb, pos) (List.mem_cons_self _ _)
    obtain ⟨v, hv⟩ := mapped_of_inRange cb pos hin
    obtain ⟨eff, he, -, -⟩ := invoke_spec cv s cb pos v hv
    obtain ⟨s2, effs, hrun, hval⟩ := ih (assign cb v s)
      (validParams_assign cb pos v s hs hin hv)
      (fun e he => hr e (List.mem_cons_of_mem _ he))
    exact ⟨s2, eff :: effs, by simp [run, he, hrun], hval⟩

/-- C9: the state reached from the freshly constructed object by any finite
sequence of slider callbacks with positions inside the registered ranges (the
empty sequence gives the initial state) exists and satisfies
0 <= m_threshold <= 100, 0 <= m_ratio <= 50, m_apperture_size one of 3, 5, 7
and odd, m_blur_size one of 1, 3, 6, 8, 10, 13, 15, 18, 25 and at least 1,
0 <= m_dilation_iter <= 10 and 0 <= m_erosion_iter <= 10; hence the upper
Canny threshold m_threshold * m_ratio lies in 0..5000, fits a 32-bit int, and
the `int` product the code computes is that number. -/
theorem C9_parameter_validity (cv : CvLib) (win file : String)
    (evs : List (Callback × Int)) (h : ∀ e ∈ evs, inRange e.1 e.2) :
    ∃ s effs, run cv (CannyApplier.new cv win file).1 evs = some (s, effs) ∧
      (0 ≤ s.m_threshold ∧ s.m_threshold ≤ 100) ∧
      (0 ≤ s.m_ratio ∧ s.m_ratio ≤ 50) ∧
      (s.m_apperture_size ∈ [3, 5, 7] ∧ s.m_apperture_size % 2 = 1) ∧
      (s.m_blur_size ∈ [1, 3, 6, 8, 10, 13, 15, 18, 25] ∧ 1 ≤ s.m_blur_size) ∧
      (0 ≤ s.m_dilation_iter ∧ s.m_dilation_iter ≤ 10) ∧
      (0 ≤ s.m_erosion_iter ∧ s.m_erosion_iter ≤ 10) ∧
      (0 ≤ s.m_threshold * s.m_ratio ∧ s.m_threshold * s.m_ratio ≤ 5000) ∧
      fitsInt32 (s.m_threshold * s.m_ratio) ∧
      int_mul s.m_threshold s.m_ratio = s.m_threshold * s.m_ratio := by
  obtain ⟨s, effs, hrun, hval⟩ := run_valid cv evs _ (validParams_new cv win file) h
  obtain ⟨t, r, a, b, d, e⟩ := hval
  have hprod : 0 ≤ s.m_threshold * s.m_ratio ∧ s.m_threshold * s.m_ratio ≤ 5000 := by
    constructor
    · exact mul_nonneg t.1 r.1
    · calc s.m_threshold * s.m_ratio ≤ 100 * 50 := mul_le_mul t.2 r.2 r.1 (by norm_num)
        _ = 5000 := by norm_num
  have hfit : fitsInt32 (s.m_threshold * s.m_ratio) := by
    unfold fitsInt32; omega
  refine ⟨s, effs, hrun, t, r, ⟨a, ?_⟩, ⟨b, ?_⟩, d, e, hprod, hfit, int_mul_of_fits _ _ hfit⟩
  · simp only [List.mem_cons, List.mem_singleton, List.not_mem_nil, or_false] at a
    omega
  · simp only [List.mem_cons, List.mem_singleton, List.not_mem_nil, or_false] at b
    omega

/-- Witness of C9: three in-range slider movements on the sample object. -/
theorem C9_parameter_validity_witness :
    (∀ e ∈ [(Callback.threshold, (100 : Int)), (Callback.ratio, 50), (Callback.blur, 8)],
      inRange e.1 e.2) ∧
    ∃ s effs, run sampleCv (CannyApplier.new sampleCv "Edge Map" "cell.png").1
        [(Callback.threshold, 100), (Callback.ratio, 50), (Callback.blur, 8)] =
          some (s, effs) ∧
      (0 ≤ s.m_threshold ∧ s.m_threshold ≤ 100) ∧
      (0 ≤ s.m_ratio ∧ s.m_ratio ≤ 50) ∧
      (s.m_apperture_size ∈ [3, 5, 7] ∧ s.m_apperture_size % 2 = 1) ∧
      (s.m_blur_size ∈ [1, 3, 6, 8, 10, 13, 15, 18, 25] ∧ 1 ≤ s.m_blur_size) ∧
      (0 ≤ s.m_dilation_iter ∧ s.m_dilation_iter ≤ 10) ∧
      (0 ≤ s.m_erosion_iter ∧ s.m_erosion_iter ≤ 10) ∧
      (0 ≤ s.m_threshold * s.m_ratio ∧ s.m_threshold * s.m_ratio ≤ 5000) ∧
      fitsInt32 (s.m_threshold * s.m_ratio) ∧
      int_mul s.m_threshold s.m_ratio = s.m_threshold * s.m_ratio :=
  ⟨by decide, C9_parameter_validity sampleCv "Edge Map" "cell.png"
    [(Callback.threshold, 100), (Callback.ratio, 50), (Callback.blur, 8)] (by decide)⟩

theorem sync_new (cv : CvLib) (win file : String) :
    Sync (fun _ => 0) false (CannyApplier.new cv win file).1 := by
  obtain ⟨t, r, a, b, d, e⟩ := new_params cv win file
  refine ⟨?_, by simp, fun _ => ⟨r, rfl⟩⟩
  intro cb hcb
  cases cb <;> simp [mapped, field, t, a, b, d, e, array_at, s_apperture_size_values,
    s_blur_size_values] at hcb ⊢

theorem sync_step (cv : CvLib) (p : Callback → Int) (moved : Bool) (s : CannyApplier)
    (cb : Callback) (pos : Int) (hs : Sync p moved s) (hr : inRange cb pos)
    (hne : pos ≠ p cb) :
    ∃ s1 eff, invoke cv cb pos s = some (s1, eff) ∧
      Sync (Function.update p cb pos) (moved || decide (cb = Callback.ratio)) s1 ∧
      ((moved = false ∧ cb = Callback.ratio ∧ pos = 3) → redraws eff = 0) ∧
      (¬ (moved = false ∧ cb = Callback.ratio ∧ pos = 3) → redraws eff = 1) := by
  obtain ⟨v, hv⟩ := mapped_of_inRange cb pos hr
  obtain ⟨eff, he, hred, -⟩ := invoke_spec cv s cb pos v hv
  obtain ⟨hothers, hmoved, hfresh⟩ := hs
  refine ⟨assign cb v s, eff, he, ?_, ?_, ?_⟩
  · refine ⟨?_, ?_, ?_⟩
    · intro cb2 hcb2
      by_cases h2 : cb2 = cb
      · subst h2
        rw [Function.update_same, field_assign_self]
        exact hv
      · rw [Function.update_noteq h2, field_assign_other cb cb2 v s h2]
        exact hothers cb2 hcb2
    · intro hm
      by_cases hc : cb = Callback.ratio
      · subst hc
        simp only [mapped, Option.some.injEq] at hv
        rw [Function.update_same]
        exact hv.symm
      · have hm2 : moved = true := by simpa [hc] using hm
        rw [Function.update_noteq (Ne.symm hc)]
        have := field_assign_other cb Callback.ratio v s (Ne.symm hc)
        simp only [field] at this
        rw [this]
        exact hmoved hm2
    · intro hm
      have hc : cb ≠ Callback.ratio := by
        intro hc; simp [hc] at hm
      have hm2 : moved = false := by
        cases moved <;> simp_all
      rw [Function.update_noteq (Ne.symm hc)]
      have := field_assign_other cb Callback.ratio v s (Ne.symm hc)
      simp only [field] at this
      rw [this]
      exact hfresh hm2
  · rintro ⟨hm, hc, hp⟩
    subst hc
    simp only [mapped, Option.some.injEq] at hv
    have h3 : v = field Callback.ratio s := by
      simp only [field]; rw [(hfresh hm).1]; omega
    rw [hred]; simp [h3]
  · intro hcond
    have hdiff : v ≠ field cb s := by
      by_cases hc : cb = Callback.ratio
      · subst hc
        simp only [mapped, Option.some.injEq] at hv
        simp only [field]
        cases hmv : moved
        · have h3 : pos ≠ 3 := fun h3 => hcond ⟨hmv, rfl, h3⟩
          rw [(hfresh hmv).1]; omega
        · rw [hmoved hmv]; omega
      · intro heq
        have h1 := hothers cb hc
        rw [← heq] at h1
        exact hne (mapped_inj cb pos (p cb) v hv h1)
    rw [hred]; simp [hdiff]

theorem run_redraws (cv : CvLib) :
    ∀ (evs : List (Callback × Int)) (p : Callback → Int) (moved : Bool) (s : CannyApplier),
      Sync p moved s → validMoves p evs →
      ∃ s1 effs, run cv s evs = some (s1, effs) ∧ effs.length = evs.length ∧
        ∀ i (hi : i < evs.length),
          ((moved = false ∧ evs[i] = (Callback.ratio, 3) ∧
              ∀ e ∈ evs.take i, e.1 ≠ Callback.ratio) → redraws (effs.getD i []) = 0) ∧
          (¬ (moved = false ∧ evs[i] = (Callback.ratio, 3) ∧
              ∀ e ∈ evs.take i, e.1 ≠ Callback.ratio) → redraws (effs.getD i []) = 1) := by
  intro evs
  induction evs with
  | nil =>
    intro p moved s _ _
    exact ⟨s, [], rfl, rfl, fun i hi => absurd hi (by simp)⟩
  | cons e rest ih =>
    intro p moved s hs hval
    obtain ⟨cb, pos⟩ := e
    obtain ⟨hr, hne, hrest⟩ := hval
    obtain ⟨s1, eff, he, hs1, hzero, hone⟩ := sync_step cv p moved s cb pos hs hr hne
    obtain ⟨s2, effs, hrun, hlen, hall⟩ := ih _ _ s1 hs1 hrest
    refine ⟨s2, eff :: effs, by simp [run, he, hrun], by simp [hlen], ?_⟩
    intro i hi
    cases i with
    | zero =>
      simp only [List.getElem_cons_zero, List.take_zero, List.not_mem_nil, false_implies,
        implies_true, and_true, Prod.mk.injEq, List.getD_cons_zero]
      exact ⟨hzero, hone⟩
    | succ k =>
      have hk : k < rest.length := by simpa using hi
      obtain ⟨hz, ho⟩ := hall k hk
      have hiff : (moved = false ∧ rest[k] = (Callback.ratio, 3) ∧
            ∀ e ∈ (cb, pos) :: rest.take k, e.1 ≠ Callback.ratio) ↔
          ((moved || decide (cb = Callback.ratio)) = false ∧
            rest[k] = (Callback.ratio, 3) ∧ ∀ e ∈ rest.take k, e.1 ≠ Callback.ratio) := by
        simp only [List.mem_cons, forall_eq_or_imp, Bool.or_eq_false_iff,
          decide_eq_false_iff_not]
        tauto
      simp only [List.getElem_cons_succ, List.take_succ_cons, List.getD_cons_succ]
      rw [hiff]
      exact ⟨hz, ho⟩

/-- C1, as the code has it: starting from the freshly constructed object with
all six sliders at position 0, in every sequence of slider callbacks in which
each invocation reports a position inside its slider's range and different
from that slider's previous position, every callback has a defined result and
every invocation performs exactly one redraw, except the first invocation of
the ratio callback when it reports position 3 (the initial value of
`m_ratio`), which performs none. -/
theorem C1_redraw_on_every_change_but_initial_ratio (cv : CvLib) (win file : String)
    (evs : List (Callback × Int)) (h : validMoves (fun _ => 0) evs) :
    ∃ s effs, run cv (CannyApplier.new cv win file).1 evs = some (s, effs) ∧
      effs.length = evs.length ∧
      ∀ i (hi : i < evs.length),
        ((evs[i] = (Callback.ratio, 3) ∧ ∀ e ∈ evs.take i, e.1 ≠ Callback.ratio) →
          redraws (effs.getD i []) = 0) ∧
        (¬ (evs[i] = (Callback.ratio, 3) ∧ ∀ e ∈ evs.take i, e.1 ≠ Callback.ratio) →
          redraws (effs.getD i []) = 1) := by
  obtain ⟨s, effs, hrun, hlen, hall⟩ :=
    run_redraws cv evs (fun _ => 0) false _ (sync_new cv win file) h
  refine ⟨s, effs, hrun, hlen, fun i hi => ?_⟩
  obtain ⟨hz, ho⟩ := hall i hi
  exact ⟨fun hc => hz ⟨rfl, hc⟩, fun hc => ho (fun hc2 => hc hc2.2)⟩

/-- Witness of C1 as amended: the ratio slider moved to 5 and then to 3, and
the blur slider moved to 8, on the sample object. -/
theorem C1_redraw_on_every_change_but_initial_ratio_witness :
    validMoves (fun _ => 0) [(Callback.ratio, 5), (Callback.ratio, 3), (Callback.blur, 8)] ∧
    ∃ s effs, run sampleCv (CannyApplier.new sampleCv "Edge Map" "cell.png").1
        [(Callback.ratio, 5), (Callback.ratio, 3), (Callback.blur, 8)] = some (s, effs) ∧
      effs.length = [(Callback.ratio, (5 : Int)), (Callback.ratio, 3), (Callback.blur, 8)].length ∧
      ∀ i (hi : i < [(Callback.ratio, (5 : Int)), (Callback.ratio, 3),
          (Callback.blur, 8)].length),
        (([(Callback.ratio, (5 : Int)), (Callback.ratio, 3), (Callback.blur, 8)][i] =
              (Callback.ratio, 3) ∧
            ∀ e ∈ [(Callback.ratio, (5 : Int)), (Callback.ratio, 3),
              (Callback.blur, 8)].take i, e.1 ≠ Callback.ratio) →
          redraws (effs.getD i []) = 0) ∧
        (¬ ([(Callback.ratio, (5 : Int)), (Callback.ratio, 3), (Callback.blur, 8)][i] =
              (Callback.ratio, 3) ∧
            ∀ e ∈ [(Callback.ratio, (5 : Int)), (Callback.ratio, 3),
              (Callback.blur, 8)].take i, e.1 ≠ Callback.ratio) →
          redraws (effs.getD i []) = 1) :=
  ⟨⟨by decide, by decide, by decide, by decide, by decide, by decide, trivial⟩,
   C1_redraw_on_every_change_but_initial_ratio sampleCv "Edge Map" "cell.png"
    [(Callback.ratio, 5), (Callback.ratio, 3), (Callback.blur, 8)]
    ⟨by decide, by decide, by decide, by decide, by decide, by decide, trivial⟩⟩

/-- Counterexample to C1 as stated: from the freshly constructed sample object
with every slider at position 0, moving the ratio slider to position 3 is a
position change inside the range 0..50, and the callback performs no
redraw. -/
theorem C1_counterexample :
    validMoves (fun _ => 0) [(Callback.ratio, 3)] ∧
    (run sampleCv (CannyApplier.new sampleCv "Edge Map" "cell.png").1
      [(Callback.ratio, 3)]).map (fun r => r.2.map redraws) = some [0] :=
  ⟨⟨by decide, by decide, trivial⟩, by decide⟩

end Canny
